import Mathlib

/-!
# GHOSTDAG consensus core of blanim — shallow embedding

This file embeds the consensus core of the blanim block-DAG renderer
(`blanim/blockDAGs/kaspa/logical_block.py` and `blanim/blockDAGs/kaspa/dag.py`)
and proves the specification claims about it.

Modelling conventions:
* A block is identified by its `hash` field (an opaque numeric tie-break key,
  called `id` throughout); the claims assume ids are globally unique.
* The DAG state is the `all_blocks` list, in creation order (parents before
  children), with each block carrying its finalized GHOSTDAG data.
* Python sets are modelled as duplicate-free lists; the source explicitly
  documents that the order of `list(set)` results is not guaranteed, so all
  properties below are stated up to set membership / permutation.
* `local_blue_pov` dictionaries are modelled as insertion-ordered association
  lists with Python-dict update semantics (`povInsert`).
* Rendering, animation and naming concerns (visual blocks, the `blocks`
  name-dictionary, scene calls) are out of the consensus core per spec §1
  and are not modelled.
-/

namespace Blanim

/-- One DAG node with its finalized GHOSTDAG data
(`KaspaLogicalBlock` + `GhostDAGData`; the never-written `blue_anticone`
field of `GhostDAGData` is omitted). -/
structure Block where
  /-- The `hash` tie-break key, standing in for a cryptographic hash. -/
  id : Nat
  /-- Parent ids; after construction the selected parent is at position 0. -/
  parents : List Nat
  /-- Child ids, appended as later blocks reference this one. -/
  children : List Nat
  /-- `ghostdag.blue_score`. -/
  blueScore : Nat
  /-- `selected_parent` (none for genesis). -/
  selectedParent : Option Nat
  /-- `ghostdag.unordered_mergeset`. -/
  mergeset : List Nat
  /-- `ghostdag.local_blue_pov`, insertion-ordered. -/
  pov : List (Nat × Bool)
  deriving Repr, DecidableEq

/-- The `all_blocks` list of `KaspaDAG`, in creation order. -/
abbrev DagState := List Block

/-- Look a block up by id (object identity in the source; here ids are the
identity, assumed unique). -/
def findBlock (s : DagState) (i : Nat) : Option Block :=
  s.find? (fun b => b.id == i)

/-- `block.parents` of the block with id `i` (empty for unknown ids). -/
def parentsOf (s : DagState) (i : Nat) : List Nat :=
  ((findBlock s i).map Block.parents).getD []

/-- `block.children` of the block with id `i` (empty for unknown ids). -/
def childrenOf (s : DagState) (i : Nat) : List Nat :=
  ((findBlock s i).map Block.children).getD []

/-- `block.ghostdag.blue_score` of the block with id `i`. -/
def blueScoreOf (s : DagState) (i : Nat) : Nat :=
  ((findBlock s i).map Block.blueScore).getD 0

/-- `block.ghostdag.local_blue_pov` of the block with id `i`. -/
def povOf (s : DagState) (i : Nat) : List (Nat × Bool) :=
  ((findBlock s i).map Block.pov).getD []

/-- `block.selected_parent` of the block with id `i`. -/
def selectedParentOf (s : DagState) (i : Nat) : Option Nat :=
  ((findBlock s i).map Block.selectedParent).getD none

/-!
## Cone queries (`get_past_cone` / `get_future_cone`)

The source uses an iterative worklist search with a visited set; ids are
added to the visited set when first discovered.  The result order of the
Python version is explicitly unspecified (`list(set)`), so only the set of
ids matters.  The recursion is bounded by fuel; any fuel large enough to
exhaust the worklist yields the same visited set, and the bound used below
(`s.length + roots.length + 1`) dominates the total number of worklist pops
on states whose parent/child references point at existing blocks.
-/

/-- Discover each id of `next` in order: ids not yet visited are appended to
the visited list and to the list of newly discovered ids. -/
def discover (past : List Nat) (next : List Nat) : List Nat × List Nat :=
  next.foldl
    (fun acc p => if p ∈ acc.1 then acc else (acc.1 ++ [p], acc.2 ++ [p]))
    (past, [])

/-- Worklist traversal: pop an id, discover its neighbours, recurse. -/
def coneAux (adj : Nat → List Nat) : Nat → List Nat → List Nat → List Nat
  | 0, past, _ => past
  | _ + 1, past, [] => past
  | fuel + 1, past, cur :: stack =>
      let d := discover past (adj cur)
      coneAux adj fuel d.1 (d.2 ++ stack)

/-- Visited set of the worklist traversal seeded with `roots`
(the roots themselves are discovered first, as in the source where the
starting block is popped and its parents processed). -/
def coneFromRoots (s : DagState) (adj : Nat → List Nat) (roots : List Nat) :
    List Nat :=
  let d := discover [] roots
  coneAux adj (s.length + roots.length + 1) d.1 d.2

/-- `get_past_cone` seeded from an explicit parent list: used for the block
under construction, whose own entry is not yet in the DAG. -/
def pastConeFromParents (s : DagState) (roots : List Nat) : List Nat :=
  coneFromRoots s (parentsOf s) roots

/-- `get_past_cone` of an existing block: all strict ancestors. -/
def pastCone (s : DagState) (b : Nat) : List Nat :=
  pastConeFromParents s (parentsOf s b)

/-- `get_future_cone` of an existing block: all strict descendants. -/
def futureCone (s : DagState) (b : Nat) : List Nat :=
  coneFromRoots s (childrenOf s) (childrenOf s b)

/-!
## Anticone confined to a reference block's past (`get_anticone_in_past`)
-/

/-- The set formula of `get_anticone_in_past`:
`search_space \ past(b) \ future(b) \ {b}` with
`search_space = ref_past ∪ {ref}`.  `refPast` is the (already computed)
past cone of the reference block and `refId` its id. -/
def anticoneInPastFor (s : DagState) (refId : Nat) (refPast : List Nat)
    (b : Nat) : List Nat :=
  (refPast.insert refId).filter
    (fun x => x ∉ pastCone s b ∧ x ∉ futureCone s b ∧ x ≠ b)

/-- The message of the `ValueError` raised by `get_anticone_in_past`. -/
def notAncestorMsg : String :=
  "Self must be in reference block's past cone"

/-- `get_anticone_in_past` between two blocks of the DAG, with the
"Self must be in reference block's past cone" contract check.  The source
raises `ValueError`; here the error branch is an `Except.error`.  The source
function only reads block state (`get_past_cone` / `get_future_cone` are
pure traversals), which the state-passing wrapper below makes explicit. -/
def getAnticoneInPast (s : DagState) (b : Nat) (ref : Nat) :
    Except String (List Nat) :=
  let refPast := pastCone s ref
  if b ∉ refPast ∧ b ≠ ref then
    .error notAncestorMsg
  else
    .ok (anticoneInPastFor s ref refPast b)

/-- State-passing form of `get_anticone_in_past`: returns the DAG state
alongside the result, making explicit that the query never mutates it. -/
def getAnticoneInPastSt (s : DagState) (b : Nat) (ref : Nat) :
    DagState × Except String (List Nat) :=
  (s, getAnticoneInPast s b ref)

/-!
## Parent selection and merge-set ordering

`_get_sort_key` is `(blue_score, -hash)`.  `_select_parent` sorts descending
by that key (stable) and takes the head: the first parent attaining the
maximal key, i.e. highest blue score, ties broken by lowest id.
`get_sorted_mergeset_without_sp` sorts ascending by the same key: lowest
blue score first, ties broken by HIGHEST id (since `-hash` is compared
ascending).
-/

/-- Strict "sort key of `a` is less than sort key of `b`" for the ascending
`(blue_score, -hash)` order of `_get_sort_key`. -/
def keyLt (s : DagState) (a b : Nat) : Bool :=
  blueScoreOf s a < blueScoreOf s b ∨
    (blueScoreOf s a = blueScoreOf s b ∧ b < a)

/-- Strict "sort key of `a` is greater than sort key of `b`": highest blue
score wins, ties broken by lowest id. -/
def keyGt (s : DagState) (a b : Nat) : Bool :=
  blueScoreOf s b < blueScoreOf s a ∨
    (blueScoreOf s a = blueScoreOf s b ∧ a < b)

/-- `_select_parent`: the first parent attaining the maximal
`(blue_score, -hash)` key (`sorted(..., reverse=True)[0]`, a stable sort). -/
def selectParent (s : DagState) (ps : List Nat) : Option Nat :=
  match ps with
  | [] => none
  | p :: rest =>
      some (rest.foldl (fun best q => if keyGt s q best then q else best) p)

/-- Insert `x` into a list sorted ascending by `keyLt` (stable: `x` goes
after elements with an equal key). -/
def insKey (s : DagState) (x : Nat) : List Nat → List Nat
  | [] => [x]
  | y :: ys => if keyLt s x y then x :: y :: ys else y :: insKey s x ys

/-- Ascending stable sort by `_get_sort_key`, as in
`evaluation_mergeset.sort(key=self._get_sort_key)`. -/
def sortByKey (s : DagState) (l : List Nat) : List Nat :=
  l.foldr (insKey s) []

/-- `parents.sort(key=lambda p: p != self.selected_parent)`: stable sort
moving the selected parent to index 0. -/
def sortedParentsOf (ps : List Nat) (sp : Nat) : List Nat :=
  ps.filter (· = sp) ++ ps.filter (· ≠ sp)

/-- Past cone of the block under construction (`self.get_past_cone()` during
`__init__`, before the block is linked into any `children` list). -/
def selfPastOf (s : DagState) (ps : List Nat) (sp : Nat) : List Nat :=
  pastConeFromParents s (sortedParentsOf ps sp)

/-- `_create_unordered_mergeset`: `past(self) \ past(selected_parent)`. -/
def mergesetOf (s : DagState) (ps : List Nat) (sp : Nat) : List Nat :=
  (selfPastOf s ps sp).filter (· ∉ pastCone s sp)

/-- `get_sorted_mergeset_without_sp` as computed during construction:
the unordered mergeset minus the selected parent, sorted ascending by
`(blue_score, -hash)`. -/
def candidatesOf (s : DagState) (ps : List Nat) (sp : Nat) : List Nat :=
  sortByKey s ((mergesetOf s ps sp).filter (· ≠ sp))

/-- `get_sorted_mergeset_without_sp` as a query on a finished block. -/
def getSortedMergesetWithoutSp (s : DagState) (b : Block) : List Nat :=
  sortByKey s (b.mergeset.filter (fun x => some x ≠ b.selectedParent))

/-!
## Local blue view and the k-cluster classifier
-/

/-- Python-dict assignment `view[i] = v`: update the binding in place if the
key is present, append it otherwise. -/
def povInsert : List (Nat × Bool) → Nat → Bool → List (Nat × Bool)
  | [], i, v => [(i, v)]
  | (j, w) :: rest, i, v =>
      if j = i then (j, v) :: rest else (j, w) :: povInsert rest i v

/-- Dict lookup `view.get(i)`. -/
def lookupView (m : List (Nat × Bool)) (i : Nat) : Option Bool :=
  (m.find? (fun p => p.1 == i)).map Prod.snd

/-- `{block for block, is_blue in view.items() if is_blue}`. -/
def blueKeys (m : List (Nat × Bool)) : List Nat :=
  (m.filter Prod.snd).map Prod.fst

/-- `can_be_blue_local(candidate, view, k)`.  Both checks call
`get_anticone_in_past(self)`; at these call sites the candidate and every
blue block lie in the past of the block under construction, so the contract
check of `get_anticone_in_past` never fires and the set formula
`anticoneInPastFor` is used directly (`selfId`/`selfPast` describe the block
being classified). -/
def canBeBlueLocal (s : DagState) (selfId : Nat) (selfPast : List Nat)
    (candidate : Nat) (view : List (Nat × Bool)) (k : Nat) : Bool :=
  let blues := blueKeys view
  let candAnticone := anticoneInPastFor s selfId selfPast candidate
  if k < (candAnticone.filter (· ∈ blues)).length then false
  else
    blues.all (fun blueBlock =>
      let blueAnticone := anticoneInPastFor s selfId selfPast blueBlock
      !(decide (candidate ∈ blueAnticone)) ||
        decide ((blueAnticone.filter (· ∈ blues)).length + 1 ≤ k))

/-- One iteration of the classifier loop: mark the candidate blue and bump
the counter if `can_be_blue_local` accepts it, else record it red. -/
def classifyStep (s : DagState) (selfId : Nat) (selfPast : List Nat) (k : Nat)
    (acc : List (Nat × Bool) × Nat) (c : Nat) : List (Nat × Bool) × Nat :=
  if canBeBlueLocal s selfId selfPast c acc.1 k then
    (povInsert acc.1 c true, acc.2 + 1)
  else
    (povInsert acc.1 c false, acc.2)

/-- The classifier loop over the sorted candidate list. -/
def classifyFold (s : DagState) (selfId : Nat) (selfPast : List Nat) (k : Nat)
    (start : List (Nat × Bool) × Nat) (cands : List Nat) :
    List (Nat × Bool) × Nat :=
  cands.foldl (classifyStep s selfId selfPast k) start

/-- The view entering the classifier loop: the selected parent's inherited
`local_blue_pov`, the selected parent marked blue, every candidate marked
red. -/
def initViewOf (s : DagState) (sp : Nat) (cands : List Nat) :
    List (Nat × Bool) :=
  cands.foldl (fun v c => povInsert v c false) (povInsert (povOf s sp) sp true)

/-- `KaspaLogicalBlock.__init__` for a block with a selected parent:
parent reordering, mergeset derivation, `_compute_ghostdag`. -/
def mkBlockWithSp (k : Nat) (s : DagState) (i : Nat) (ps : List Nat)
    (sp : Nat) : Block :=
  let cands := candidatesOf s ps sp
  let res := classifyFold s i (selfPastOf s ps sp) k
    (initViewOf s sp cands, 0) cands
  { id := i
    parents := sortedParentsOf ps sp
    children := []
    blueScore := blueScoreOf s sp + 1 + res.2
    selectedParent := some sp
    mergeset := mergesetOf s ps sp
    pov := res.1 }

/-- `KaspaLogicalBlock.__init__`, consensus part: genesis (no parents) keeps
the `GhostDAGData` defaults, otherwise the full pipeline runs. -/
def mkBlock (k : Nat) (s : DagState) (i : Nat) (ps : List Nat) : Block :=
  match selectParent s ps with
  | none =>
      { id := i, parents := ps, children := [], blueScore := 0
        selectedParent := none, mergeset := [], pov := [] }
  | some sp => mkBlockWithSp k s i ps sp

/-- `for parent in self.parents: parent.children.append(self)`. -/
def registerChild (s : DagState) (ps : List Nat) (cid : Nat) : DagState :=
  s.map (fun b =>
    if b.id ∈ ps then { b with children := b.children ++ [cid] } else b)

/-- Adding one block to the DAG: construct it against the current state,
register it in its parents' `children` lists, append it to `all_blocks`. -/
def addBlock (k : Nat) (s : DagState) (i : Nat) (ps : List Nat) : DagState :=
  let b := mkBlock k s i ps
  registerChild s b.parents i ++ [b]

/-- Building a DAG from `(id, parent ids)` pairs supplied in creation
(parents-before-children) order. -/
def buildDag (k : Nat) (entries : List (Nat × List Nat)) : DagState :=
  entries.foldl (fun s e => addBlock k s e.1 e.2) []

/-- Building a DAG from `(id, timestamp, parent ids)` triples: the
constructor stores the timestamp but the consensus pipeline never reads it
("creation-order hint, not used by the classifier itself"). -/
def buildDagTimed (k : Nat) (entries : List (Nat × Int × List Nat)) :
    DagState :=
  entries.foldl (fun s e => addBlock k s e.1 e.2.2) []

/-!
## The spec's two classifier checks (§4.3), stated as predicates

`specCheckA` and `specCheckB` transcribe the spec's Check A / Check B
formulas; the theorem for claim C2 relates them to the classifier loop.
-/

/-- Check A of the spec: the candidate's own bound
`|anticone_in_past(candidate, b) ∩ blue_set| ≤ k`. -/
def specCheckA (s : DagState) (selfId : Nat) (selfPast : List Nat)
    (candidate : Nat) (view : List (Nat × Bool)) (k : Nat) : Prop :=
  ((anticoneInPastFor s selfId selfPast candidate).filter
    (· ∈ blueKeys view)).length ≤ k

/-- Check B of the spec: no currently-blue block whose anticone (in the past
of `b`) contains the candidate may be pushed over the bound. -/
def specCheckB (s : DagState) (selfId : Nat) (selfPast : List Nat)
    (candidate : Nat) (view : List (Nat × Bool)) (k : Nat) : Prop :=
  ∀ blueBlock ∈ blueKeys view,
    candidate ∈ anticoneInPastFor s selfId selfPast blueBlock →
      ((anticoneInPastFor s selfId selfPast blueBlock).filter
        (· ∈ blueKeys view)).length + 1 ≤ k

/-!
## Tip / sink / virtual-block service (`dag.py`)
-/

/-- The ordering key of `find_sink`, written in `dag.py` as its own lambda
`(block.ghostdag.blue_score, -block.hash)` over block objects: strict
"greater" comparison. -/
def blockKeyGt (a b : Block) : Bool :=
  b.blueScore < a.blueScore ∨ (a.blueScore = b.blueScore ∧ a.id < b.id)

/-- `KaspaDAG.find_sink`: `sorted(all_blocks, key, reverse=True)[0]` — the
first block attaining the maximal `(blue_score, -hash)` key, `None` on an
empty DAG. -/
def findSink (s : DagState) : Option Block :=
  match s with
  | [] => none
  | b :: rest =>
      some (rest.foldl (fun best q => if blockKeyGt q best then q else best) b)

/-- `non_tips` of `BlockRetrieval.get_current_tips`: every id that appears
in some block's `parents` list. -/
def nonTipRefs (s : DagState) : List Nat :=
  s.foldl (fun acc b => acc ++ b.parents) []

/-- Tips of a non-empty DAG: blocks that are not parents of any block
(computed from parent references, not from `children` lists). -/
def currentTipIds (s : DagState) : List Nat :=
  (s.filter (fun b => b.id ∉ nonTipRefs s)).map Block.id

/-- `BlockRetrieval.get_current_tips`: on an empty DAG it creates a genesis
block (via `dag.add_block()`, whose fresh id is the `gid` parameter here)
and returns it; otherwise it returns the parent-reference tips, falling back
to `[dag.genesis]` (the `genesisRef` parameter) if that list is empty.
Returns the updated `all_blocks` list together with the tip ids. -/
def getCurrentTips (k : Nat) (gid : Nat) (genesisRef : Option Nat)
    (s : DagState) : DagState × List Nat :=
  if s.isEmpty then
    ([mkBlock k [] gid []], [gid])
  else
    (s,
      let tips := currentTipIds s
      if tips.isEmpty then genesisRef.toList else tips)

/-- `KaspaDAG.add_virtual_to_scene`: fetch the current tips, construct the
virtual block over them (full `KaspaLogicalBlock.__init__` pipeline, which
also registers it in its parents' `children` lists), and append it to
`all_blocks`.  `vid` is the virtual block's fresh hash. -/
def addVirtual (k : Nat) (vid : Nat) (gid : Nat) (genesisRef : Option Nat)
    (s : DagState) : DagState :=
  let t := getCurrentTips k gid genesisRef s
  let virt := mkBlock k t.1 vid t.2
  registerChild t.1 virt.parents vid ++ [virt]

/-- `KaspaDAG.destroy_virtual_block`: no-op when no virtual block is
tracked; otherwise remove the virtual block from every former parent's
`children` list, then from `all_blocks`. -/
def destroyVirtual (vid : Nat) (s : DagState) : DagState :=
  match findBlock s vid with
  | none => s
  | some virt =>
      (s.map (fun b =>
        if b.id ∈ virt.parents then
          { b with children := b.children.erase vid }
        else b)).eraseP (fun b => b.id == vid)

/-!
## Selected-parent chain and the folded point-of-view map

`get_all_selected_parents_pov` is invoked at `dag.py`
(`show_inheriting_sp_view`) but is not defined anywhere in the sources;
the two definitions below are therefore modelled from the spec.
-/

/-- Modelled from the spec: `selected_parent_chain(b)` (§4.4), "repeatedly
follow `selected_parent` from `b` to genesis; yields an ordered list,
nearest-first"; the starting block itself is included.  Fuelled by the DAG
size, which bounds any selected-parent chain. -/
def spChainAux (s : DagState) : Nat → Option Nat → List Nat
  | 0, _ => []
  | _, none => []
  | fuel + 1, some i => i :: spChainAux s fuel (selectedParentOf s i)

/-- The selected-parent chain of `b`, nearest-first, ending at genesis. -/
def selectedParentChain (s : DagState) (b : Nat) : List Nat :=
  spChainAux s (s.length + 1) (some b)

/-- Update `acc` with every entry of the dictionary `m`, entries of `m`
overwriting those of `acc` (Python `dict.update`). -/
def dictUpdate (acc m : List (Nat × Bool)) : List (Nat × Bool) :=
  m.foldl (fun a p => povInsert a p.1 p.2) acc

/-- Modelled from the spec: `all_selected_parents_pov(b)` (§4.4), the
operation invoked as `get_all_selected_parents_pov` in
`show_inheriting_sp_view` but missing from the sources — "folds
`local_blue_view` dictionaries across `selected_parent_chain(b)`, later
(closer-to-`b`) entries overwriting earlier ones". -/
def allSelectedParentsPov (s : DagState) (b : Nat) : List (Nat × Bool) :=
  (selectedParentChain s b).reverse.foldl
    (fun acc c => dictUpdate acc (povOf s c)) []

/-!
## Concrete scenarios

Ids realize the required order `D < C < E < B`; the remaining ids are
arbitrary distinct values (the spec scenario pins only that order, and no
tie between the other blocks' keys arises):
`D = 0, C = 1, E = 2, B = 3, Gen = 4, I = 5, H = 6, F = 7, L = 8, K = 9,
J = 10, M = 11`.
-/

/-- The spec §8 concrete scenario (PHANTOM/GHOSTDAG paper, figure 3),
in the creation order used by the repository's own example
(`GHOSTDAGFig3Concise`). -/
def fig3Entries : List (Nat × List Nat) :=
  [ (4, []), (2, [4]), (0, [4]), (1, [4]), (3, [4]),
    (5, [2]), (6, [0, 1, 2]), (7, [3, 1]), (8, [5, 0]),
    (9, [3, 6, 5]), (10, [7, 6]), (11, [9, 7]) ]

/-- The fully classified figure-3 DAG with `k = 3`. -/
def fig3Dag : DagState := buildDag 3 fig3Entries

/-- All twelve block ids of the scenario. -/
def fig3Ids : List Nat := [4, 2, 0, 1, 3, 5, 6, 7, 8, 9, 10, 11]

/-- Expected `local_blue_pov` of block `M`: blue
`{Gen, D, C, E, H, I, K}`, red `{B, F}`; `M` itself and the tips `J`, `L`
are not in `M`'s past and hence absent. -/
def fig3MPov : Nat → Option Bool
  | 4 | 0 | 1 | 2 | 5 | 6 | 9 => some true
  | 3 | 7 => some false
  | _ => none

/-- Expected `local_blue_pov` of the virtual block over the tips
`{L, J, M}`: blue `{Gen, D, C, E, H, I, K, M}`, red `{B, F, J, L}` —
the blue/red partition stated in spec §8. -/
def fig3VirtualPov : Nat → Option Bool
  | 4 | 0 | 1 | 2 | 5 | 6 | 9 | 11 => some true
  | 3 | 7 | 8 | 10 => some false
  | _ => none

/-- The spec's claimed ascending mergeset order `(blue_score, id)` —
lower id first on a blue-score tie.  The code's order (`sortByKey`) differs
on ties. -/
def specMergesetAscending (s : DagState) (l : List Nat) : Prop :=
  l.Pairwise (fun a b =>
    blueScoreOf s a < blueScoreOf s b ∨
      (blueScoreOf s a = blueScoreOf s b ∧ a < b))

/-- Tie-break scenario for claim C3: genesis `4`; blocks `1`, `2`, `3` all
children of genesis (equal blue score `1`); block `5` merges all three. -/
def tieDag : DagState :=
  buildDag 3 [(4, []), (1, [4]), (2, [4]), (3, [4]), (5, [1, 2, 3])]

/-- The tie scenario before the merging block is added. -/
def tieBaseDag : DagState :=
  buildDag 3 [(4, []), (1, [4]), (2, [4]), (3, [4])]

/-- A minimal three-block chain used by several witnesses:
genesis `0`, block `1` on top, block `2` merging nothing further. -/
def chainDag : DagState := buildDag 3 [(0, []), (1, [0]), (2, [1])]

/-- A small diamond used by the classifier witnesses: genesis `4`, parallel
blocks `1` and `2`, merged by `5`. -/
def diamondDag : DagState := buildDag 3 [(4, []), (1, [4]), (2, [4])]

/-- The computed `local_blue_pov` of block `M` (id 11) in the figure-3
DAG, in its insertion order. -/
def fig3MPovList : List (Nat × Bool) :=
  [(4, true), (0, true), (2, true), (1, true), (6, true), (3, false),
   (5, true), (9, true), (7, false)]

/-- The computed `local_blue_pov` of the virtual block over the figure-3
tips `{L, J, M}`, in its insertion order. -/
def fig3VirtualPovList : List (Nat × Bool) :=
  [(4, true), (0, true), (2, true), (1, true), (6, true), (3, false),
   (5, true), (9, true), (7, false), (11, true), (8, false), (10, false)]

/-!
## Lemmas about views (Python dictionaries)
-/

lemma lookupView_cons (j : Nat) (w : Bool) (rest : List (Nat × Bool))
    (x : Nat) :
    lookupView ((j, w) :: rest) x = if j = x then some w else lookupView rest x := by
  simp only [lookupView, List.find?]
  by_cases h : j = x
  · simp [h]
  · simp [h, beq_eq_false_iff_ne.mpr h]

lemma lookupView_povInsert (m : List (Nat × Bool)) (i : Nat) (v : Bool)
    (x : Nat) :
    lookupView (povInsert m i v) x = if i = x then some v else lookupView m x := by
  induction m with
  | nil =>
      by_cases h : i = x <;> simp [povInsert, lookupView, h, lookupView_cons]
  | cons p rest ih =>
      obtain ⟨j, w⟩ := p
      by_cases hji : j = i
      · subst hji
        simp only [povInsert, if_pos rfl]
        by_cases h : j = x <;> simp [lookupView_cons, h]
      · simp only [povInsert, if_neg hji]
        by_cases h : j = x
        · have hix : ¬ i = x := by
            intro hc; exact hji (h.trans hc.symm)
          simp [lookupView_cons, h, hix]
        · simp [lookupView_cons, h, ih]

lemma lookupView_eq_none_of_not_mem (m : List (Nat × Bool)) (x : Nat)
    (h : x ∉ m.map Prod.fst) : lookupView m x = none := by
  induction m with
  | nil => rfl
  | cons p rest ih =>
      obtain ⟨j, w⟩ := p
      simp only [List.map_cons, List.mem_cons] at h
      push_neg at h
      rw [lookupView_cons]
      have hjx : ¬ j = x := by
        intro hc; exact h.1 hc.symm
      simp only [if_neg hjx]
      exact ih h.2

/-!
## Lemmas about the classifier loop
-/

lemma classifyFold_append (s : DagState) (selfId : Nat) (selfPast : List Nat)
    (k : Nat) (start : List (Nat × Bool) × Nat) (l₁ l₂ : List Nat) :
    classifyFold s selfId selfPast k start (l₁ ++ l₂) =
      classifyFold s selfId selfPast k
        (classifyFold s selfId selfPast k start l₁) l₂ := by
  simp [classifyFold, List.foldl_append]

/-- Later loop iterations only write their own candidate's key: the mark of
any id not in the remaining candidate list is untouched. -/
lemma classifyFold_lookup_not_mem (s : DagState) (selfId : Nat)
    (selfPast : List Nat) (k : Nat) (l : List Nat)
    (start : List (Nat × Bool) × Nat) (x : Nat) (hx : x ∉ l) :
    lookupView (classifyFold s selfId selfPast k start l).1 x =
      lookupView start.1 x := by
  induction l generalizing start with
  | nil => rfl
  | cons c rest ih =>
      simp only [List.mem_cons] at hx
      push_neg at hx
      have hcx : ¬ c = x := by
        intro hc; exact hx.1 hc.symm
      have step :
          lookupView (classifyStep s selfId selfPast k start c).1 x =
            lookupView start.1 x := by
        simp only [classifyStep]
        by_cases h : canBeBlueLocal s selfId selfPast c start.1 k <;>
          simp [h, lookupView_povInsert, hcx]
      calc lookupView (classifyFold s selfId selfPast k start (c :: rest)).1 x
          = lookupView (classifyStep s selfId selfPast k start c).1 x :=
            ih _ hx.2
        _ = lookupView start.1 x := step

/-- `can_be_blue_local` accepts a candidate exactly when the spec's
Check A and Check B both pass. -/
lemma canBeBlueLocal_iff (s : DagState) (selfId : Nat) (selfPast : List Nat)
    (c : Nat) (view : List (Nat × Bool)) (k : Nat) :
    canBeBlueLocal s selfId selfPast c view k = true ↔
      (specCheckA s selfId selfPast c view k ∧
        specCheckB s selfId selfPast c view k) := by
  simp only [canBeBlueLocal, specCheckA, specCheckB]
  by_cases hA :
      k < ((anticoneInPastFor s selfId selfPast c).filter
        (· ∈ blueKeys view)).length
  · simp only [if_pos hA]
    constructor
    · intro h; cases h
    · intro h
      exact absurd h.1 (by omega)
  · simp only [if_neg hA, List.all_eq_true]
    constructor
    · intro h
      refine ⟨by omega, fun bb hbb hc => ?_⟩
      have := h bb hbb
      simp only [Bool.or_eq_true, Bool.not_eq_true', decide_eq_true_eq,
        decide_eq_false_iff_not] at this
      rcases this with h1 | h2
      · exact absurd hc h1
      · exact h2
    · intro ⟨_, hB⟩ bb hbb
      simp only [Bool.or_eq_true, Bool.not_eq_true', decide_eq_true_eq,
        decide_eq_false_iff_not]
      by_cases hmem : c ∈ anticoneInPastFor s selfId selfPast bb
      · exact Or.inr (hB bb hbb hmem)
      · exact Or.inl hmem

/-- Splitting the classifier loop at candidate `c`: the final mark of `c`
is the verdict of `can_be_blue_local` on the view reached after the earlier
candidates `l₁`. -/
lemma classifyFold_lookup_split (s : DagState) (selfId : Nat)
    (selfPast : List Nat) (k : Nat) (start : List (Nat × Bool) × Nat)
    (l₁ l₂ : List Nat) (c : Nat) (hc : c ∉ l₂) :
    lookupView (classifyFold s selfId selfPast k start (l₁ ++ c :: l₂)).1 c =
      some (canBeBlueLocal s selfId selfPast c
        (classifyFold s selfId selfPast k start l₁).1 k) := by
  rw [show l₁ ++ c :: l₂ = (l₁ ++ [c]) ++ l₂ by simp,
    classifyFold_append, classifyFold_append,
    classifyFold_lookup_not_mem _ _ _ _ _ _ _ hc]
  set acc₁ := classifyFold s selfId selfPast k start l₁ with hacc
  have hone : classifyFold s selfId selfPast k acc₁ [c] =
      classifyStep s selfId selfPast k acc₁ c := rfl
  rw [hone]
  simp only [classifyStep]
  by_cases hcb : canBeBlueLocal s selfId selfPast c acc₁.1 k <;>
    simp [hcb, lookupView_povInsert]

/-- The recorded mark of candidate `c` in the finished block's view is the
classifier's verdict on the view current when `c` was processed. -/
lemma mkBlock_pov_lookup (s : DagState) (k i : Nat) (ps : List Nat)
    (sp c : Nat) (l₁ l₂ : List Nat)
    (hsp : selectParent s ps = some sp)
    (hsplit : candidatesOf s ps sp = l₁ ++ c :: l₂)
    (hc : c ∉ l₂)
    (v₁ : List (Nat × Bool))
    (hv : v₁ = (classifyFold s i (selfPastOf s ps sp) k
      (initViewOf s sp (candidatesOf s ps sp), 0) l₁).1) :
    lookupView (mkBlock k s i ps).pov c =
      some (canBeBlueLocal s i (selfPastOf s ps sp) c v₁ k) := by
  have hpov : (mkBlock k s i ps).pov =
      (classifyFold s i (selfPastOf s ps sp) k
        (initViewOf s sp (candidatesOf s ps sp), 0)
        (candidatesOf s ps sp)).1 := by
    simp [mkBlock, hsp, mkBlockWithSp]
  rw [hpov]
  set start := (initViewOf s sp (candidatesOf s ps sp), (0 : Nat)) with hstart
  rw [hsplit, classifyFold_lookup_split s i (selfPastOf s ps sp) k start
    l₁ l₂ c hc, hv]

/-- Claim C2: during classification of a non-genesis block (selected parent
`sp`, sorted candidate list split as `l₁ ++ c :: l₂`), candidate `c` is
marked blue in the block's final `local_blue_pov` if and only if the spec's
Check A and Check B both pass against the current view `v₁` (the selected
parent's inherited view with the selected parent blue, every candidate
initially red, and the earlier candidates' accepted marks folded in); a
candidate failing either check is still recorded in the view, as red. -/
theorem c2_candidate_blue_iff_checks
    (s : DagState) (k i : Nat) (ps : List Nat) (sp c : Nat)
    (l₁ l₂ : List Nat) (v₁ : List (Nat × Bool))
    (hsp : selectParent s ps = some sp)
    (hsplit : candidatesOf s ps sp = l₁ ++ c :: l₂)
    (hc : c ∉ l₂)
    (hv : v₁ = (classifyFold s i (selfPastOf s ps sp) k
      (initViewOf s sp (candidatesOf s ps sp), 0) l₁).1) :
    (lookupView (mkBlock k s i ps).pov c = some true ↔
      (specCheckA s i (selfPastOf s ps sp) c v₁ k ∧
        specCheckB s i (selfPastOf s ps sp) c v₁ k)) ∧
    (¬ (specCheckA s i (selfPastOf s ps sp) c v₁ k ∧
        specCheckB s i (selfPastOf s ps sp) c v₁ k) →
      lookupView (mkBlock k s i ps).pov c = some false) := by
  have h := mkBlock_pov_lookup s k i ps sp c l₁ l₂ hsp hsplit hc v₁ hv
  rw [h]
  constructor
  · rw [Option.some_inj]
    rw [← canBeBlueLocal_iff s i (selfPastOf s ps sp) c v₁ k]
  · intro hn
    rw [Option.some_inj]
    have : canBeBlueLocal s i (selfPastOf s ps sp) c v₁ k ≠ true := by
      intro ht
      exact hn ((canBeBlueLocal_iff s i (selfPastOf s ps sp) c v₁ k).mp ht)
    simp at this
    exact this

/-- Witness for C2: in the diamond DAG, the block merging `1` and `2`
(selected parent `1`) processes the single candidate `2` against the view
`[(4, true), (1, true), (2, false)]`. -/
theorem c2_candidate_blue_iff_checks_witness :
    (lookupView (mkBlock 3 diamondDag 5 [1, 2]).pov 2 = some true ↔
      (specCheckA diamondDag 5 (selfPastOf diamondDag [1, 2] 1) 2
        [(4, true), (1, true), (2, false)] 3 ∧
       specCheckB diamondDag 5 (selfPastOf diamondDag [1, 2] 1) 2
        [(4, true), (1, true), (2, false)] 3)) ∧
    (¬ (specCheckA diamondDag 5 (selfPastOf diamondDag [1, 2] 1) 2
        [(4, true), (1, true), (2, false)] 3 ∧
       specCheckB diamondDag 5 (selfPastOf diamondDag [1, 2] 1) 2
        [(4, true), (1, true), (2, false)] 3) →
      lookupView (mkBlock 3 diamondDag 5 [1, 2]).pov 2 = some false) :=
  c2_candidate_blue_iff_checks diamondDag 3 5 [1, 2] 1 2 [] []
    [(4, true), (1, true), (2, false)]
    (by decide) (by decide) (by decide) (by decide)

/-- Claim C4: for a non-genesis block,
`blue_score = blue_score(selected_parent) + 1 + blue_in_mergeset` (the loop
counter incremented once per candidate marked blue); hence the blue score
grows by at least 1 along every selected-parent link, and a parentless
(genesis) block gets blue score 0.  Blue scores are `Nat`, so non-negative
by type. -/
theorem c4_blue_score_formula
    (s : DagState) (k i : Nat) (ps : List Nat) (sp : Nat)
    (hsp : selectParent s ps = some sp) :
    ((mkBlock k s i ps).blueScore =
      blueScoreOf s sp + 1 +
        (classifyFold s i (selfPastOf s ps sp) k
          (initViewOf s sp (candidatesOf s ps sp), 0)
          (candidatesOf s ps sp)).2) ∧
    blueScoreOf s sp + 1 ≤ (mkBlock k s i ps).blueScore ∧
    (∀ (s' : DagState) (j : Nat), (mkBlock k s' j []).blueScore = 0) := by
  have hbs : (mkBlock k s i ps).blueScore =
      blueScoreOf s sp + 1 +
        (classifyFold s i (selfPastOf s ps sp) k
          (initViewOf s sp (candidatesOf s ps sp), 0)
          (candidatesOf s ps sp)).2 := by
    simp [mkBlock, hsp, mkBlockWithSp]
  refine ⟨hbs, by omega, fun s' j => ?_⟩
  simp [mkBlock, selectParent]

/-- Witness for C4: the merge block of the diamond DAG has blue score
`1 + 1 + 1 = 3` (its selected parent has blue score 1 and its single
candidate is accepted as blue). -/
theorem c4_blue_score_formula_witness :
    ((mkBlock 3 diamondDag 5 [1, 2]).blueScore =
      blueScoreOf diamondDag 1 + 1 +
        (classifyFold diamondDag 5 (selfPastOf diamondDag [1, 2] 1) 3
          (initViewOf diamondDag 1 (candidatesOf diamondDag [1, 2] 1), 0)
          (candidatesOf diamondDag [1, 2] 1)).2) ∧
    blueScoreOf diamondDag 1 + 1 ≤ (mkBlock 3 diamondDag 5 [1, 2]).blueScore ∧
    (∀ (s' : DagState) (j : Nat), (mkBlock 3 s' j []).blueScore = 0) :=
  c4_blue_score_formula diamondDag 3 5 [1, 2] 1 (by decide)

/-!
## Lemmas about the mergeset sort
-/

lemma insKey_perm (s : DagState) (x : Nat) (l : List Nat) :
    List.Perm (insKey s x l) (x :: l) := by
  induction l with
  | nil => exact List.Perm.refl _
  | cons y ys ih =>
      by_cases h : keyLt s x y
      · simp [insKey, h]
      · simp only [insKey, if_neg h]
        exact (ih.cons y).trans (List.Perm.swap x y ys)

lemma sortByKey_perm (s : DagState) (l : List Nat) :
    List.Perm (sortByKey s l) l := by
  induction l with
  | nil => exact List.Perm.refl _
  | cons a l ih =>
      have : sortByKey s (a :: l) = insKey s a (sortByKey s l) := rfl
      rw [this]
      exact (insKey_perm s a (sortByKey s l)).trans (ih.cons a)

lemma mem_insKey (s : DagState) (x z : Nat) (l : List Nat) :
    z ∈ insKey s x l ↔ z = x ∨ z ∈ l :=
  by simpa using (insKey_perm s x l).mem_iff

lemma keyLt_asymm (s : DagState) (a b : Nat)
    (h : keyLt s a b = true) : keyLt s b a = false := by
  simp only [keyLt, decide_eq_true_eq, decide_eq_false_iff_not] at h ⊢
  omega

lemma keyLt_trans (s : DagState) (a b c : Nat)
    (h1 : keyLt s a b = true) (h2 : keyLt s b c = true) :
    keyLt s a c = true := by
  simp only [keyLt, decide_eq_true_eq] at h1 h2 ⊢
  omega

lemma keyLt_false_left_trans (s : DagState) (a b c : Nat)
    (h1 : keyLt s a b = false) (h2 : keyLt s c b = true) :
    keyLt s c a = true := by
  simp only [keyLt, decide_eq_true_eq, decide_eq_false_iff_not] at h1 h2 ⊢
  omega

/-- Ascending sortedness in the code's `(blue_score, -hash)` order, as the
pairwise absence of inversions. -/
lemma insKey_pairwise (s : DagState) (x : Nat) (l : List Nat)
    (h : l.Pairwise (fun a b => keyLt s b a = false)) :
    (insKey s x l).Pairwise (fun a b => keyLt s b a = false) := by
  induction l with
  | nil => simp [insKey]
  | cons y ys ih =>
      rw [List.pairwise_cons] at h
      by_cases hxy : keyLt s x y
      · simp only [insKey, if_pos hxy]
        rw [List.pairwise_cons]
        refine ⟨?_, List.pairwise_cons.mpr h⟩
        intro z hz
        rcases List.mem_cons.mp hz with hz | hz
        · subst hz; exact keyLt_asymm s x z hxy
        · by_contra hzx
          have hzx' : keyLt s z x = true := by
            cases hval : keyLt s z x with
            | true => rfl
            | false => exact absurd hval hzx
          exact absurd (keyLt_trans s z x y hzx' hxy)
            (by rw [h.1 z hz]; simp)
      · simp only [insKey, if_neg hxy]
        rw [List.pairwise_cons]
        refine ⟨?_, ih h.2⟩
        intro z hz
        rcases (mem_insKey s x z ys).mp hz with hz | hz
        · subst hz
          cases hval : keyLt s z y with
          | false => rfl
          | true => exact absurd hval (by simpa using hxy)
        · exact h.1 z hz

lemma sortByKey_pairwise (s : DagState) (l : List Nat) :
    (sortByKey s l).Pairwise (fun a b => keyLt s b a = false) := by
  induction l with
  | nil => simp [sortByKey]
  | cons a l ih => exact insKey_pairwise s a (sortByKey s l) ih

/-- Counterexample to claim C3: in `tieDag`, block `5` merges the
equal-blue-score blocks `2` and `3`; the code returns the mergeset sorted as
`[3, 2]` — the HIGHER id first on the tie — which is not ascending in the
claimed `(blue_score, id)` order. -/
theorem c3_counterexample :
    ((findBlock tieDag 5).map (getSortedMergesetWithoutSp tieDag))
        = some [3, 2] ∧
    blueScoreOf tieDag 2 = blueScoreOf tieDag 3 ∧
    ¬ specMergesetAscending tieDag [3, 2] := by
  refine ⟨by decide, by decide, ?_⟩
  intro h
  have h1 := (List.pairwise_cons.mp h).1 2 (by simp)
  have h2 : blueScoreOf tieDag 2 = 1 := by decide
  have h3 : blueScoreOf tieDag 3 = 1 := by decide
  omega

/-- Claim C3 as amended: `sorted_merge_set_without_sp(b)` is a permutation
of `merge_set(b)` minus the selected parent, sorted ascending by the key
`(blue_score, -id)` — lower blue score first and, among candidates with
equal blue score, the one with the HIGHER id first — and this list is
exactly the candidate iteration order the classifier consumes. -/
theorem c3_sorted_mergeset_amended
    (s : DagState) (k i : Nat) (ps : List Nat) (sp : Nat)
    (hsp : selectParent s ps = some sp) :
    List.Perm (getSortedMergesetWithoutSp s (mkBlock k s i ps))
      ((mergesetOf s ps sp).filter (· ≠ sp)) ∧
    (getSortedMergesetWithoutSp s (mkBlock k s i ps)).Pairwise
      (fun a b => keyLt s b a = false) ∧
    getSortedMergesetWithoutSp s (mkBlock k s i ps) =
      candidatesOf s ps sp := by
  have hms : (mkBlock k s i ps).mergeset = mergesetOf s ps sp := by
    simp [mkBlock, hsp, mkBlockWithSp]
  have hsel : (mkBlock k s i ps).selectedParent = some sp := by
    simp [mkBlock, hsp, mkBlockWithSp]
  have hq : getSortedMergesetWithoutSp s (mkBlock k s i ps) =
      candidatesOf s ps sp := by
    rw [getSortedMergesetWithoutSp, hms, hsel, candidatesOf]
    congr 1
    apply List.filter_congr
    intro x _
    simp
  refine ⟨?_, ?_, hq⟩
  · rw [hq, candidatesOf]
    exact sortByKey_perm s _
  · rw [hq, candidatesOf]
    exact sortByKey_pairwise s _

/-- Witness for C3 (amended): the pre-merge state of the tie scenario,
where the block merging `1`, `2`, `3` consumes the candidate list `[3, 2]`. -/
theorem c3_sorted_mergeset_amended_witness :
    List.Perm
      (getSortedMergesetWithoutSp tieBaseDag (mkBlock 3 tieBaseDag 5 [1, 2, 3]))
      ((mergesetOf tieBaseDag [1, 2, 3] 1).filter (· ≠ 1)) ∧
    (getSortedMergesetWithoutSp tieBaseDag
      (mkBlock 3 tieBaseDag 5 [1, 2, 3])).Pairwise
      (fun a b => keyLt tieBaseDag b a = false) ∧
    getSortedMergesetWithoutSp tieBaseDag (mkBlock 3 tieBaseDag 5 [1, 2, 3]) =
      candidatesOf tieBaseDag [1, 2, 3] 1 :=
  c3_sorted_mergeset_amended tieBaseDag 3 5 [1, 2, 3] 1 (by decide)

/-!
## Lemmas about maximal-key selection

`_select_parent` and `find_sink` both take the head of a stable descending
sort by `(blue_score, -hash)`; that head is the fold below, which keeps the
earlier element on ties.
-/

lemma pickMax_mem {α : Type} (gt : α → α → Bool) (p : α) (rest : List α) :
    rest.foldl (fun best q => if gt q best then q else best) p ∈ p :: rest := by
  induction rest generalizing p with
  | nil => simp
  | cons q rest ih =>
      have := ih (if gt q p then q else p)
      rcases List.mem_cons.mp this with h | h
      · by_cases hqp : gt q p <;>
          · simp only [List.foldl_cons, h]
            simp [hqp]
      · simp only [List.foldl_cons]
        exact List.mem_cons_of_mem _ (List.mem_cons_of_mem _ h)

lemma pickMax_not_gt {α : Type} (gt : α → α → Bool)
    (hIrr : ∀ a, gt a a = false)
    (hT1 : ∀ a b c, gt a b = true → gt b c = true → gt a c = true)
    (hT2 : ∀ a b c, gt a b = false → gt a c = true → gt b c = true)
    (p : α) (rest : List α) :
    ∀ x ∈ p :: rest,
      gt x (rest.foldl (fun best q => if gt q best then q else best) p) =
        false := by
  induction rest generalizing p with
  | nil =>
      intro x hx
      simp only [List.mem_singleton] at hx
      subst hx
      exact hIrr x
  | cons q rest ih =>
      intro x hx
      simp only [List.foldl_cons]
      by_cases hqp : gt q p = true
      · rw [if_pos hqp]
        have IH := ih q
        rcases List.mem_cons.mp hx with hx | hx'
        · subst hx
          by_contra hpr
          have hpr' : gt x (rest.foldl
              (fun best q => if gt q best then q else best) q) = true := by
            cases hval : gt x (rest.foldl
                (fun best q => if gt q best then q else best) q) with
            | true => rfl
            | false => exact absurd hval hpr
          have hqr := hT1 q x _ hqp hpr'
          rw [IH q (List.mem_cons_self q rest)] at hqr
          cases hqr
        · rcases List.mem_cons.mp hx' with hx' | hx'
          · subst hx'
            exact IH x (List.mem_cons_self x rest)
          · exact IH x (List.mem_cons_of_mem _ hx')
      · have hqp' : gt q p = false := by
          cases hval : gt q p with
          | true => exact absurd hval hqp
          | false => rfl
        rw [if_neg (by simp [hqp'])]
        have IH := ih p
        rcases List.mem_cons.mp hx with hx | hx'
        · subst hx
          exact IH x (List.mem_cons_self x rest)
        · rcases List.mem_cons.mp hx' with hx' | hx'
          · subst hx'
            by_contra hqr
            have hqr' : gt x (rest.foldl
                (fun best q => if gt q best then q else best) p) = true := by
              cases hval : gt x (rest.foldl
                  (fun best q => if gt q best then q else best) p) with
              | true => rfl
              | false => exact absurd hval hqr
            have hpr := hT2 x p _ hqp' hqr'
            rw [IH p (List.mem_cons_self p rest)] at hpr
            cases hpr
          · exact IH x (List.mem_cons_of_mem _ hx')

lemma keyGt_irrefl (s : DagState) (a : Nat) : keyGt s a a = false := by
  simp [keyGt]

lemma keyGt_trans (s : DagState) (a b c : Nat)
    (h1 : keyGt s a b = true) (h2 : keyGt s b c = true) :
    keyGt s a c = true := by
  simp only [keyGt, decide_eq_true_eq] at h1 h2 ⊢
  omega

lemma keyGt_false_trans (s : DagState) (a b c : Nat)
    (h1 : keyGt s a b = false) (h2 : keyGt s a c = true) :
    keyGt s b c = true := by
  simp only [keyGt, decide_eq_true_eq, decide_eq_false_iff_not] at h1 h2 ⊢
  omega

lemma keyGt_total (s : DagState) (a b : Nat) (h : a ≠ b) :
    keyGt s a b = true ∨ keyGt s b a = true := by
  simp only [keyGt, decide_eq_true_eq]
  rcases Nat.lt_or_ge a b with hab | hab
  · omega
  · omega

lemma blockKeyGt_irrefl (a : Block) : blockKeyGt a a = false := by
  simp [blockKeyGt]

lemma blockKeyGt_trans (a b c : Block)
    (h1 : blockKeyGt a b = true) (h2 : blockKeyGt b c = true) :
    blockKeyGt a c = true := by
  simp only [blockKeyGt, decide_eq_true_eq] at h1 h2 ⊢
  omega

lemma blockKeyGt_false_trans (a b c : Block)
    (h1 : blockKeyGt a b = false) (h2 : blockKeyGt a c = true) :
    blockKeyGt b c = true := by
  simp only [blockKeyGt, decide_eq_true_eq, decide_eq_false_iff_not]
    at h1 h2 ⊢
  omega

lemma blockKeyGt_total (a b : Block) (h : a.id ≠ b.id) :
    blockKeyGt a b = true ∨ blockKeyGt b a = true := by
  simp only [blockKeyGt, decide_eq_true_eq]
  omega

/-- With globally unique ids, looking a member block up by its id finds
that block. -/
lemma findBlock_eq_self (s : DagState) (b : Block)
    (hid : (s.map Block.id).Nodup) (hb : b ∈ s) :
    findBlock s b.id = some b := by
  induction s with
  | nil => cases hb
  | cons a t ih =>
      simp only [List.map_cons, List.nodup_cons] at hid
      rcases List.mem_cons.mp hb with hb | hb
      · subst hb
        simp [findBlock, List.find?]
      · have hne : a.id ≠ b.id := by
          intro hc
          exact hid.1 (hc ▸ List.mem_map_of_mem Block.id hb)
        have : findBlock t b.id = some b := ih hid.2 hb
        simp only [findBlock, List.find?] at this ⊢
        rw [beq_eq_false_iff_ne.mpr hne]
        exact this

lemma blueScoreOf_mem (s : DagState) (b : Block)
    (hid : (s.map Block.id).Nodup) (hb : b ∈ s) :
    blueScoreOf s b.id = b.blueScore := by
  rw [blueScoreOf, findBlock_eq_self s b hid hb]
  rfl

/-- The block-level fold of `find_sink` and the id-level fold of
`_select_parent` agree whenever looked-up blue scores match the blocks'
stored ones. -/
lemma pickMax_id_agree (s : DagState) (p : Block) (rest : List Block)
    (H : ∀ x ∈ p :: rest, blueScoreOf s x.id = x.blueScore) :
    (rest.foldl (fun best q => if blockKeyGt q best then q else best) p).id =
      (rest.map Block.id).foldl
        (fun best q => if keyGt s q best then q else best) p.id := by
  induction rest generalizing p with
  | nil => rfl
  | cons q rest ih =>
      have hagree : blockKeyGt q p = keyGt s q.id p.id := by
        have hp := H p (List.mem_cons_self _ _)
        have hq := H q (List.mem_cons_of_mem _ (List.mem_cons_self _ _))
        simp [blockKeyGt, keyGt, hp, hq]
      simp only [List.foldl_cons, List.map_cons]
      rw [← hagree]
      by_cases hqp : blockKeyGt q p = true
      · rw [if_pos hqp, if_pos hqp]
        refine ih q ?_
        intro x hx
        rcases List.mem_cons.mp hx with hx | hx
        · exact H x (hx ▸ List.mem_cons_of_mem _ (List.mem_cons_self _ _))
        · exact H x (List.mem_cons_of_mem _ (List.mem_cons_of_mem _ hx))
      · rw [if_neg hqp, if_neg hqp]
        refine ih p ?_
        intro x hx
        rcases List.mem_cons.mp hx with hx | hx
        · exact H x (hx ▸ List.mem_cons_self _ _)
        · exact H x (List.mem_cons_of_mem _ (List.mem_cons_of_mem _ hx))

/-- Claim C5: for a non-empty parent list, `_select_parent` returns an
element of the list that strictly dominates every other parent id in the
`(blue_score, negated id)` key — highest blue score first, ties broken by
lowest id — and `find_sink` on a non-empty DAG returns a block of the DAG
strictly dominating every block with a different id under the same key;
moreover `find_sink` computes exactly `_select_parent`'s fold applied to
all block ids (the identical comparator). -/
theorem c5_parent_selection_and_sink
    (s : DagState) (ps : List Nat)
    (hps : ps ≠ []) (hs : s ≠ [])
    (hid : (s.map Block.id).Nodup) :
    (∃ m, selectParent s ps = some m ∧ m ∈ ps ∧
        ∀ p ∈ ps, p ≠ m → keyGt s m p = true) ∧
    (∃ b, findSink s = some b ∧ b ∈ s ∧
        (∀ b' ∈ s, b'.id ≠ b.id → blockKeyGt b b' = true) ∧
        (findSink s).map Block.id = selectParent s (s.map Block.id)) := by
  constructor
  · match ps, hps with
    | p :: rest, _ =>
        refine ⟨rest.foldl (fun best q => if keyGt s q best then q else best) p,
          rfl, pickMax_mem _ p rest, ?_⟩
        intro x hx hne
        have hfalse := pickMax_not_gt (keyGt s) (keyGt_irrefl s)
          (keyGt_trans s) (keyGt_false_trans s) p rest x hx
        rcases keyGt_total s
            (rest.foldl (fun best q => if keyGt s q best then q else best) p)
            x (fun hc => hne hc.symm) with h | h
        · exact h
        · rw [hfalse] at h
          cases h
  · match s, hs with
    | b0 :: rest, _ =>
        set bmax := rest.foldl
          (fun best q => if blockKeyGt q best then q else best) b0 with hbm
        have hmem : bmax ∈ b0 :: rest := pickMax_mem _ b0 rest
        refine ⟨bmax, rfl, hmem, ?_, ?_⟩
        · intro b' hb' hne
          have hfalse := pickMax_not_gt blockKeyGt blockKeyGt_irrefl
            blockKeyGt_trans blockKeyGt_false_trans b0 rest b' hb'
          rcases blockKeyGt_total bmax b' (fun hc => hne hc.symm) with h | h
          · exact h
          · rw [hfalse] at h
            cases h
        · have H : ∀ x ∈ b0 :: rest,
              blueScoreOf (b0 :: rest) x.id = x.blueScore := by
            intro x hx
            exact blueScoreOf_mem (b0 :: rest) x hid hx
          have := pickMax_id_agree (b0 :: rest) b0 rest H
          simp only [findSink, selectParent, List.map_cons]
          exact congrArg some this

/-- Witness for C5: the three-block chain, with parent candidates `[0, 1]`. -/
theorem c5_parent_selection_and_sink_witness :
    (∃ m, selectParent chainDag [0, 1] = some m ∧ m ∈ [0, 1] ∧
        ∀ p ∈ [0, 1], p ≠ m → keyGt chainDag m p = true) ∧
    (∃ b, findSink chainDag = some b ∧ b ∈ chainDag ∧
        (∀ b' ∈ chainDag, b'.id ≠ b.id → blockKeyGt b b' = true) ∧
        (findSink chainDag).map Block.id =
          selectParent chainDag (chainDag.map Block.id)) :=
  c5_parent_selection_and_sink chainDag [0, 1] (by decide) (by decide)
    (by decide)

/-- Claim C6: `get_anticone_in_past(b, ref)` raises its "not an ancestor"
error exactly when `b` is neither `ref` nor in `ref`'s past cone; when the
precondition holds it returns exactly
`(past_cone(ref) ∪ {ref}) \ past_cone(b) \ future_cone(b) \ {b}`; and the
query never changes the DAG state (it is a pure read, made explicit by the
state-passing wrapper). -/
theorem c6_anticone_contract (s : DagState) (b ref : Nat) :
    (getAnticoneInPast s b ref = Except.error notAncestorMsg ↔
      (b ∉ pastCone s ref ∧ b ≠ ref)) ∧
    ((b ∈ pastCone s ref ∨ b = ref) →
      getAnticoneInPast s b ref =
        Except.ok (anticoneInPastFor s ref (pastCone s ref) b)) ∧
    (∀ x, x ∈ anticoneInPastFor s ref (pastCone s ref) b ↔
      ((x ∈ pastCone s ref ∨ x = ref) ∧ x ∉ pastCone s b ∧
        x ∉ futureCone s b ∧ x ≠ b)) ∧
    (getAnticoneInPastSt s b ref).1 = s := by
  refine ⟨?_, ?_, ?_, rfl⟩
  · by_cases h : b ∉ pastCone s ref ∧ b ≠ ref
    · simp [getAnticoneInPast, h]
    · simp only [getAnticoneInPast, if_neg h]
      constructor
      · intro hc; cases hc
      · intro hc; exact absurd hc h
  · intro h
    have h' : ¬ (b ∉ pastCone s ref ∧ b ≠ ref) := by
      rcases h with h | h
      · intro hc; exact hc.1 h
      · intro hc; exact hc.2 h
    simp [getAnticoneInPast, if_neg h']
  · intro x
    simp only [anticoneInPastFor, List.mem_filter, List.mem_insert_iff,
      decide_eq_true_eq]
    constructor
    · intro ⟨h1, h2⟩
      exact ⟨Or.symm h1, h2.1, h2.2.1, h2.2.2⟩
    · intro ⟨h1, h2, h3, h4⟩
      exact ⟨Or.symm h1, h2, h3, h4⟩

/-- Witness for C6: in the three-block chain, querying genesis `0` against
reference `2` succeeds, querying `2` against reference `0` violates the
precondition. -/
theorem c6_anticone_contract_witness :
    (getAnticoneInPast chainDag 0 2 =
      Except.ok (anticoneInPastFor chainDag 2 (pastCone chainDag 2) 0)) ∧
    (1 ∈ anticoneInPastFor chainDag 2 (pastCone chainDag 2) 0 ↔
      ((1 ∈ pastCone chainDag 2 ∨ 1 = 2) ∧ 1 ∉ pastCone chainDag 0 ∧
        1 ∉ futureCone chainDag 0 ∧ 1 ≠ 0)) ∧
    (getAnticoneInPast chainDag 2 0 = Except.error notAncestorMsg ↔
      (2 ∉ pastCone chainDag 0 ∧ 2 ≠ 0)) ∧
    (getAnticoneInPastSt chainDag 0 2).1 = chainDag :=
  ⟨(c6_anticone_contract chainDag 0 2).2.1 (by decide),
   (c6_anticone_contract chainDag 0 2).2.2.1 1,
   (c6_anticone_contract chainDag 2 0).1,
   (c6_anticone_contract chainDag 0 2).2.2.2⟩

/-- The timestamped pipeline is the untimed pipeline on the projected
topology: timestamps are never read by the consensus computation. -/
lemma buildDagTimed_eq (k : Nat) (e : List (Nat × Int × List Nat)) :
    buildDagTimed k e = buildDag k (e.map (fun t => (t.1, t.2.2))) := by
  have haux : ∀ (e : List (Nat × Int × List Nat)) (init : DagState),
      e.foldl (fun s t => addBlock k s t.1 t.2.2) init =
        (e.map (fun t => (t.1, t.2.2))).foldl
          (fun s p => addBlock k s p.1 p.2) init := by
    intro e
    induction e with
    | nil => intro _; rfl
    | cons t rest ih => intro s; exact ih (addBlock k s t.1 t.2.2)
  exact haux e []

/-- Claim C8: the construction-and-classification pipeline is a pure
function of the topology (ids and parent lists, in creation order) and `k`:
two runs on inputs with equal topology — timestamps may even differ —
produce identical DAG states, and in particular identical
`selected_parent`, `merge_set`, `blue_score` and `local_blue_view` for
every block.  There is no hidden randomness: the embedding needs no other
input. -/
theorem c8_determinism (k : Nat) (e₁ e₂ : List (Nat × Int × List Nat))
    (h : e₁.map (fun t => (t.1, t.2.2)) = e₂.map (fun t => (t.1, t.2.2))) :
    buildDagTimed k e₁ = buildDagTimed k e₂ ∧
    (∀ i,
      selectedParentOf (buildDagTimed k e₁) i =
        selectedParentOf (buildDagTimed k e₂) i ∧
      (findBlock (buildDagTimed k e₁) i).map Block.mergeset =
        (findBlock (buildDagTimed k e₂) i).map Block.mergeset ∧
      blueScoreOf (buildDagTimed k e₁) i = blueScoreOf (buildDagTimed k e₂) i ∧
      povOf (buildDagTimed k e₁) i = povOf (buildDagTimed k e₂) i) := by
  have hstate : buildDagTimed k e₁ = buildDagTimed k e₂ := by
    rw [buildDagTimed_eq, buildDagTimed_eq, h]
  exact ⟨hstate, fun i => by rw [hstate]; exact ⟨rfl, rfl, rfl, rfl⟩⟩

/-- Witness for C8: the same two-block topology built with different
timestamps. -/
theorem c8_determinism_witness :
    buildDagTimed 3 [(0, 5, []), (1, 7, [0])] =
      buildDagTimed 3 [(0, 2, []), (1, 9, [0])] ∧
    (∀ i,
      selectedParentOf (buildDagTimed 3 [(0, 5, []), (1, 7, [0])]) i =
        selectedParentOf (buildDagTimed 3 [(0, 2, []), (1, 9, [0])]) i ∧
      (findBlock (buildDagTimed 3 [(0, 5, []), (1, 7, [0])]) i).map
          Block.mergeset =
        (findBlock (buildDagTimed 3 [(0, 2, []), (1, 9, [0])]) i).map
          Block.mergeset ∧
      blueScoreOf (buildDagTimed 3 [(0, 5, []), (1, 7, [0])]) i =
        blueScoreOf (buildDagTimed 3 [(0, 2, []), (1, 9, [0])]) i ∧
      povOf (buildDagTimed 3 [(0, 5, []), (1, 7, [0])]) i =
        povOf (buildDagTimed 3 [(0, 2, []), (1, 9, [0])]) i) :=
  c8_determinism 3 [(0, 5, []), (1, 7, [0])] [(0, 2, []), (1, 9, [0])]
    (by decide)

/-!
## Lemmas about the folded point-of-view map (claim C9)
-/

/-- Looking up in `dict.update(acc, m)`: an entry of `m` wins, otherwise the
lookup falls through to `acc` (for duplicate-free `m`, as Python dicts are). -/
lemma lookupView_dictUpdate (m : List (Nat × Bool)) (acc : List (Nat × Bool))
    (x : Nat) (hm : (m.map Prod.fst).Nodup) :
    lookupView (dictUpdate acc m) x =
      if (lookupView m x).isSome then lookupView m x else lookupView acc x := by
  induction m generalizing acc with
  | nil => simp [dictUpdate, lookupView]
  | cons p rest ih =>
      obtain ⟨j, w⟩ := p
      simp only [List.map_cons, List.nodup_cons] at hm
      have hstep : dictUpdate acc ((j, w) :: rest) =
          dictUpdate (povInsert acc j w) rest := rfl
      rw [hstep, ih (povInsert acc j w) hm.2]
      by_cases hx : j = x
      · have hnone : lookupView rest x = none := by
          apply lookupView_eq_none_of_not_mem
          rw [← hx]
          exact hm.1
        rw [hnone, lookupView_cons, if_pos hx, lookupView_povInsert,
          if_pos hx]
        rfl
      · rw [lookupView_cons, if_neg hx, lookupView_povInsert, if_neg hx]

/-- The reverse fold of pov dictionaries along any id list answers lookups
by the first (nearest-first) list entry whose dictionary knows the key. -/
lemma chainFold_lookup (s : DagState)
    (hpov : ∀ c, ((povOf s c).map Prod.fst).Nodup)
    (chain : List Nat) (x : Nat) :
    lookupView (chain.reverse.foldl
      (fun acc c => dictUpdate acc (povOf s c)) []) x =
      chain.findSome? (fun c => lookupView (povOf s c) x) := by
  induction chain with
  | nil => rfl
  | cons c t ih =>
      rw [List.reverse_cons, List.foldl_append, List.findSome?_cons]
      simp only [List.foldl_cons, List.foldl_nil]
      rw [lookupView_dictUpdate _ _ _ (hpov c)]
      cases hval : lookupView (povOf s c) x with
      | some v => rfl
      | none => exact ih

/-- Claim C9 (spec-modelled: `get_all_selected_parents_pov` is invoked in
`show_inheriting_sp_view` but not defined in the sources, so
`allSelectedParentsPov` follows the spec §4.4 wording): the fold of
`local_blue_view` dictionaries along the selected-parent chain, with
closer-to-`b` entries overwriting, answers every key by the view of the
first chain block that knows it — the fullest blue/red map as of `b`.
The hypothesis states the (Python-automatic) fact that each stored view has
duplicate-free keys. -/
theorem c9_all_selected_parents_pov (s : DagState) (b : Nat)
    (h : ∀ b' ∈ s, (b'.pov.map Prod.fst).Nodup) (x : Nat) :
    lookupView (allSelectedParentsPov s b) x =
      (selectedParentChain s b).findSome?
        (fun c => lookupView (povOf s c) x) := by
  have hpov : ∀ c, ((povOf s c).map Prod.fst).Nodup := by
    intro c
    rw [povOf]
    cases hfind : findBlock s c with
    | none => simp
    | some blk =>
        have : blk ∈ s := List.mem_of_find?_eq_some hfind
        simpa using h blk this
  exact chainFold_lookup s hpov (selectedParentChain s b) x

/-- Witness for C9: the fold over the chain of the tip of the three-block
chain DAG, queried at genesis. -/
theorem c9_all_selected_parents_pov_witness :
    lookupView (allSelectedParentsPov chainDag 2) 0 =
      (selectedParentChain chainDag 2).findSome?
        (fun c => lookupView (povOf chainDag c) 0) :=
  c9_all_selected_parents_pov chainDag 2 (by decide) 0

/-!
## Lemmas about tips and the virtual block (claims C7 and C10)
-/

lemma mem_nonTipRefs (s : DagState) (x : Nat) :
    x ∈ nonTipRefs s ↔ ∃ b ∈ s, x ∈ b.parents := by
  have haux : ∀ (l : List Block) (init : List Nat),
      x ∈ l.foldl (fun acc b => acc ++ b.parents) init ↔
        x ∈ init ∨ ∃ b ∈ l, x ∈ b.parents := by
    intro l
    induction l with
    | nil => intro init; simp
    | cons a t ih =>
        intro init
        rw [List.foldl_cons, ih]
        simp only [List.mem_append, List.mem_cons]
        constructor
        · rintro ((h | h) | ⟨b, hb, hxb⟩)
          · exact Or.inl h
          · exact Or.inr ⟨a, Or.inl rfl, h⟩
          · exact Or.inr ⟨b, Or.inr hb, hxb⟩
        · rintro (h | ⟨b, (hb | hb), hxb⟩)
          · exact Or.inl (Or.inl h)
          · exact Or.inl (Or.inr (hb ▸ hxb))
          · exact Or.inr ⟨b, hb, hxb⟩
  simpa using haux s []

/-- The id of a constructed block is the id passed in, whether or not a
selected parent exists. -/
lemma mkBlock_id (k : Nat) (s : DagState) (i : Nat) (ps : List Nat) :
    (mkBlock k s i ps).id = i := by
  rw [mkBlock]
  cases selectParent s ps with
  | none => rfl
  | some sp => rfl

/-- Claim C10: `get_current_tips` on an empty DAG creates a genesis block
(a side effect) and returns just it; on a non-empty DAG it leaves the state
unchanged and — whenever some block is referenced by nobody, which the
parents-before-children creation order always guarantees — returns exactly
the blocks that appear in no block's parents list, a computation over
parent references, not `children` lists. -/
theorem c10_get_current_tips (k gid : Nat) (gref : Option Nat)
    (s : DagState) :
    (getCurrentTips k gid gref [] = ([mkBlock k [] gid []], [gid]) ∧
      (mkBlock k [] gid []).id = gid ∧
      (mkBlock k [] gid []).parents = [] ∧
      (mkBlock k [] gid []).blueScore = 0 ∧
      (mkBlock k [] gid []).selectedParent = none) ∧
    (s ≠ [] → (getCurrentTips k gid gref s).1 = s) ∧
    (s ≠ [] → currentTipIds s ≠ [] →
      (getCurrentTips k gid gref s).2 = currentTipIds s) ∧
    (∀ x, x ∈ currentTipIds s ↔
      ∃ b ∈ s, b.id = x ∧ ∀ b' ∈ s, x ∉ b'.parents) := by
  have hne : s ≠ [] → s.isEmpty = false := by
    intro h
    cases s with
    | nil => exact absurd rfl h
    | cons a t => rfl
  refine ⟨⟨rfl, rfl, rfl, rfl, rfl⟩, ?_, ?_, ?_⟩
  · intro h
    simp [getCurrentTips, hne h]
  · intro h htips
    have htips' : (currentTipIds s).isEmpty = false := by
      cases hcase : currentTipIds s with
      | nil => exact absurd hcase htips
      | cons a t => rfl
    simp [getCurrentTips, hne h, htips']
  · intro x
    simp only [currentTipIds, List.mem_map, List.mem_filter,
      decide_eq_true_eq]
    constructor
    · rintro ⟨b, ⟨hb, hnt⟩, hid⟩
      refine ⟨b, hb, hid, ?_⟩
      intro b' hb' hx
      rw [mem_nonTipRefs] at hnt
      exact hnt ⟨b', hb', hid ▸ hx⟩
    · rintro ⟨b, hb, hid, hall⟩
      refine ⟨b, ⟨hb, ?_⟩, hid⟩
      rw [mem_nonTipRefs]
      rintro ⟨b', hb', hxb⟩
      exact hall b' hb' (hid ▸ hxb)

/-- Witness for C10: the three-block chain, whose only tip is block `2`. -/
theorem c10_get_current_tips_witness :
    getCurrentTips 3 7 none [] = ([mkBlock 3 [] 7 []], [7]) ∧
    (getCurrentTips 3 7 none chainDag).1 = chainDag ∧
    (getCurrentTips 3 7 none chainDag).2 = currentTipIds chainDag ∧
    (2 ∈ currentTipIds chainDag ↔
      ∃ b ∈ chainDag, b.id = 2 ∧ ∀ b' ∈ chainDag, 2 ∉ b'.parents) :=
  ⟨(c10_get_current_tips 3 7 none chainDag).1.1,
   (c10_get_current_tips 3 7 none chainDag).2.1 (by decide),
   (c10_get_current_tips 3 7 none chainDag).2.2.1 (by decide) (by decide),
   (c10_get_current_tips 3 7 none chainDag).2.2.2 2⟩

lemma erase_append_singleton (c : List Nat) (v : Nat) (h : v ∉ c) :
    (c ++ [v]).erase v = c := by
  rw [List.erase_append_right _ h]
  simp

/-- Claim C7: on a non-empty DAG, creating the virtual block over the
current tips and then destroying it is a round trip: the final state is the
original one (so `current_tips` is unchanged and no former parent's
`children` list retains the virtual block), and even the intermediate state
keeps every real block's `blue_score` and `local_blue_view` intact — the
virtual block's construction, classification and destruction never touch
them.  `vid` is the virtual block's hash, fresh for the DAG. -/
theorem c7_virtual_roundtrip (k vid gid : Nat) (gref : Option Nat)
    (s : DagState) (hs : s ≠ [])
    (hfresh : vid ∉ s.map Block.id)
    (hchild : ∀ b ∈ s, vid ∉ b.children) :
    destroyVirtual vid (addVirtual k vid gid gref s) = s ∧
    currentTipIds (destroyVirtual vid (addVirtual k vid gid gref s)) =
      currentTipIds s ∧
    (∀ b' ∈ destroyVirtual vid (addVirtual k vid gid gref s),
      vid ∉ b'.children) ∧
    (∀ b ∈ s, ∃ b' ∈ addVirtual k vid gid gref s,
      b'.id = b.id ∧ b'.blueScore = b.blueScore ∧ b'.pov = b.pov) := by
  have hne : s.isEmpty = false := by
    cases s with
    | nil => exact absurd rfl hs
    | cons a t => rfl
  have ht1 : (getCurrentTips k gid gref s).1 = s := by
    simp [getCurrentTips, hne]
  set tips := (getCurrentTips k gid gref s).2 with htips
  set virt := mkBlock k s vid tips with hvirt
  have hvid : virt.id = vid := mkBlock_id k s vid tips
  have hadd : addVirtual k vid gid gref s =
      registerChild s virt.parents vid ++ [virt] := by
    rw [addVirtual]
    rw [ht1]
  set reg := registerChild s virt.parents vid with hreg
  have hregids : ∀ b' ∈ reg, b'.id ≠ vid := by
    intro b' hb'
    rw [hreg, registerChild] at hb'
    obtain ⟨b, hb, hfb⟩ := List.mem_map.mp hb'
    have hid' : b'.id = b.id := by
      rw [← hfb]
      by_cases hin : b.id ∈ virt.parents <;> simp [hin]
    rw [hid']
    intro hc
    exact hfresh (hc ▸ List.mem_map_of_mem Block.id hb)
  have hfind : findBlock (reg ++ [virt]) vid = some virt := by
    rw [findBlock, List.find?_append]
    have h1 : reg.find? (fun b => b.id == vid) = none := by
      rw [List.find?_eq_none]
      intro b hb
      simp only [beq_iff_eq]
      exact hregids b hb
    rw [h1]
    simp [hvid]
  have hd0 : destroyVirtual vid (reg ++ [virt]) =
      List.eraseP (fun b => b.id == vid)
        ((reg ++ [virt]).map (fun b =>
          if b.id ∈ virt.parents then
            { b with children := b.children.erase vid }
          else b)) := by
    rw [destroyVirtual, hfind]
  have hmapreg : reg.map (fun b =>
      if b.id ∈ virt.parents then
        { b with children := b.children.erase vid }
      else b) = s := by
    rw [hreg, registerChild, List.map_map]
    have hpt : ∀ b ∈ s, ((fun b =>
        if b.id ∈ virt.parents then
          { b with children := b.children.erase vid }
        else b) ∘ (fun b =>
        if b.id ∈ virt.parents then
          { b with children := b.children ++ [vid] }
        else b)) b = id b := by
      intro b hb
      simp only [Function.comp_apply, id]
      by_cases hin : b.id ∈ virt.parents
      · rw [if_pos hin]
        simp only [if_pos hin]
        have : (b.children ++ [vid]).erase vid = b.children :=
          erase_append_singleton b.children vid (hchild b hb)
        simp [this]
      · rw [if_neg hin, if_neg hin]
    rw [List.map_congr_left hpt, List.map_id]
  have hdestroy : destroyVirtual vid (reg ++ [virt]) = s := by
    rw [hd0, List.map_append, hmapreg, List.map_singleton]
    rw [List.eraseP_append_right]
    · have hpv : ((if virt.id ∈ virt.parents then
          { virt with children := virt.children.erase vid }
          else virt).id) = vid := by
        split <;> simp [hvid]
      simp only [List.eraseP_cons, hpv]
      simp
    · intro b hb
      simp only [beq_iff_eq]
      intro hc
      exact hfresh (hc ▸ List.mem_map_of_mem Block.id hb)
  rw [hadd]
  refine ⟨hdestroy, by rw [hdestroy], ?_, ?_⟩
  · intro b' hb'
    rw [hdestroy] at hb'
    exact hchild b' hb'
  · intro b hb
    refine ⟨if b.id ∈ virt.parents then
      { b with children := b.children ++ [vid] } else b, ?_, ?_⟩
    · apply List.mem_append_left
      rw [hreg, registerChild]
      exact List.mem_map_of_mem _ hb
    · by_cases hin : b.id ∈ virt.parents <;> simp [hin]

/-- Witness for C7: the three-block chain with virtual-block hash `9`. -/
theorem c7_virtual_roundtrip_witness :
    destroyVirtual 9 (addVirtual 3 9 7 none chainDag) = chainDag ∧
    currentTipIds (destroyVirtual 9 (addVirtual 3 9 7 none chainDag)) =
      currentTipIds chainDag ∧
    (∀ b' ∈ destroyVirtual 9 (addVirtual 3 9 7 none chainDag),
      9 ∉ b'.children) ∧
    (∀ b ∈ chainDag, ∃ b' ∈ addVirtual 3 9 7 none chainDag,
      b'.id = b.id ∧ b'.blueScore = b.blueScore ∧ b'.pov = b.pov) :=
  c7_virtual_roundtrip 3 9 7 none chainDag (by decide) (by decide)
    (by decide)

/-!
## The concrete figure-3 scenario (claim C1)
-/

set_option maxRecDepth 100000 in
/-- Counterexample to claim C1: in the figure-3 DAG, `M`'s own
`local_blue_pov` records nothing for `J` (id 10), `L` (id 8) or `M` itself
(id 11) — those blocks are not in `M`'s past — so `M`'s local blue view
does not mark `J` and `L` red nor `M` blue, contradicting the claimed
partition blue `{G, D, C, E, H, I, K, M}` / red `{B, F, J, L}` of `M`'s
local view. -/
theorem c1_counterexample :
    povOf fig3Dag 11 = fig3MPovList ∧
    lookupView fig3MPovList 10 = none ∧
    lookupView fig3MPovList 8 = none ∧
    lookupView fig3MPovList 11 = none := by
  refine ⟨by decide, by decide, by decide, by decide⟩

set_option maxRecDepth 100000 in
/-- Claim C1 as amended: for the concrete DAG (k = 3, ids ordered
`D < C < E < B`), the selected-parent chain from `M` is
`M → K → H → D → G`; `M`'s local blue view marks exactly
`{G, D, C, E, H, I, K}` blue and `{B, F}` red (the blocks outside `M`'s
past are absent from it); and the spec's expected partition — blue
`{G, D, C, E, H, I, K, M}`, red `{B, F, J, L}` — is the local blue view of
the virtual block constructed over the tips `{L, J, M}`. -/
theorem c1_scenario_amended :
    selectedParentChain fig3Dag 11 = [11, 9, 6, 0, 4] ∧
    povOf fig3Dag 11 = fig3MPovList ∧
    (fig3Ids.all fun x => lookupView fig3MPovList x == fig3MPov x) = true ∧
    currentTipIds fig3Dag = [8, 10, 11] ∧
    (mkBlock 3 fig3Dag 12 [8, 10, 11]).selectedParent = some 11 ∧
    (mkBlock 3 fig3Dag 12 [8, 10, 11]).pov = fig3VirtualPovList ∧
    (fig3Ids.all fun x =>
      lookupView fig3VirtualPovList x == fig3VirtualPov x) = true := by
  refine ⟨by decide, by decide, by decide, by decide, by decide, by decide,
    by decide⟩

end Blanim
